import Mathlib

/-!
Verification of the palettizer core pipeline (palette extraction,
nearest-color matching, pixel remapping) from `src/main.rs`.

The embedding models:
- `Color` — an RGBA sample, the Rust `[u8; 4]` (channels as `Nat`;
  byte bounds appear as hypotheses where they matter);
- `colorLt` — the lexicographic `[u8; 4]` comparison used by `BTreeSet`;
- `insertColor` / `extractPalette` — `BTreeSet::insert` over the palette
  image's pixels, with alpha forced to 255 (main.rs lines 190-193);
- `dist` — the Manhattan RGB distance `abs_diff` sum (lines 203-205);
- `distU64` — the same computation with the `u64` wrap-around made
  explicit, to relate machine arithmetic to the exact value;
- `matchStep` / `scanMin` / `nearestColor` — the inner matcher loop with
  its `min_diff = 255` sentinel and strict-improvement update
  (lines 200-210), plus the final alpha restore (line 211);
- `remap` — the per-pixel loop over the target grid (lines 196-214);
  each pixel is read before it is written and no other pixel is read,
  so the in-place mutation is a `map`.
-/

namespace Palettizer

structure Color where
  r : Nat
  g : Nat
  b : Nat
  a : Nat
deriving DecidableEq

/-- Lexicographic order on (R, G, B, A), the `Ord` instance of `[u8; 4]`
that governs `BTreeSet` membership and iteration order. -/
def colorLt (c d : Color) : Bool :=
  if c.r < d.r then true
  else if d.r < c.r then false
  else if c.g < d.g then true
  else if d.g < c.g then false
  else if c.b < d.b then true
  else if d.b < c.b then false
  else if c.a < d.a then true
  else false

/-- Two colors agree on the R, G, B channels (alpha ignored). -/
def sameRGB (c d : Color) : Prop :=
  c.r = d.r ∧ c.g = d.g ∧ c.b = d.b

instance sameRGB.instDecidable (c d : Color) : Decidable (sameRGB c d) :=
  inferInstanceAs (Decidable (c.r = d.r ∧ c.g = d.g ∧ c.b = d.b))

/-- `[color.0[0], color.0[1], color.0[2], 255]` — the palette entry built
from a source pixel (main.rs line 192). -/
def toOpaque (c : Color) : Color :=
  ⟨c.r, c.g, c.b, 255⟩

/-- Ordered-set insertion, modelling `BTreeSet::insert` on the sorted
duplicate-free list of the set's elements. -/
def insertColor (c : Color) : List Color → List Color
  | [] => [c]
  | d :: ds =>
    if colorLt c d then c :: d :: ds
    else if c = d then d :: ds
    else d :: insertColor c ds

/-- The palette extractor (main.rs lines 190-193): fold every source pixel,
alpha forced to 255, into the ordered set. -/
def extractPalette (pixels : List Color) : List Color :=
  pixels.foldl (fun acc p => insertColor (toOpaque p) acc) []

/-- Manhattan RGB distance: `abs_diff` per channel, summed
(main.rs lines 203-205), as exact natural arithmetic. -/
def dist (t p : Color) : Nat :=
  Nat.dist t.r p.r + Nat.dist t.g p.g + Nat.dist t.b p.b

/-- 2 ^ 64, the modulus of `u64` arithmetic. -/
def U64_MOD : Nat := 18446744073709551616

/-- The distance computation as the machine performs it: each `u8`
`abs_diff` is cast losslessly to `u64`, and the two `u64` additions
wrap modulo `2 ^ 64`. -/
def distU64 (t p : Color) : Nat :=
  ((Nat.dist t.r p.r + Nat.dist t.g p.g) % U64_MOD + Nat.dist t.b p.b) % U64_MOD

/-- One iteration of the matcher loop (main.rs lines 202-209): the
candidate replaces the running best only on strict improvement. -/
def matchStep (t : Color) (acc : Nat × Color) (p : Color) : Nat × Color :=
  if dist t p < acc.1 then (dist t p, p) else acc

/-- The matcher scan (main.rs lines 200-210): fold over the palette in its
iteration order, starting from the sentinel `min_diff = 255`,
`min_color = [0, 0, 0, alpha]`. -/
def scanMin (t : Color) (palette : List Color) : Nat × Color :=
  palette.foldl (matchStep t) (255, ⟨0, 0, 0, t.a⟩)

/-- The matcher result written back to the pixel: RGB of the scan's best
color, alpha restored to the target pixel's alpha (main.rs line 211). -/
def nearestColor (palette : List Color) (t : Color) : Color :=
  ⟨(scanMin t palette).2.r, (scanMin t palette).2.g, (scanMin t palette).2.b, t.a⟩

/-- The remapping loop (main.rs lines 196-214). Each pixel is read before
being overwritten and no other pixel is consulted, so the in-place
update is a pointwise map over the grid's pixels. -/
def remap (palette : List Color) (grid : List Color) : List Color :=
  grid.map (fun c => nearestColor palette c)

theorem colorLt_iff (c d : Color) :
    colorLt c d = true ↔
      (c.r < d.r ∨ (c.r = d.r ∧ (c.g < d.g ∨ (c.g = d.g ∧
        (c.b < d.b ∨ (c.b = d.b ∧ c.a < d.a)))))) := by
  unfold colorLt
  split_ifs <;> simp <;> omega

theorem colorLt_trans {a b c : Color} (h1 : colorLt a b = true) (h2 : colorLt b c = true) :
    colorLt a c = true := by
  rw [colorLt_iff] at h1 h2 ⊢
  omega

theorem colorLt_total (c d : Color) : colorLt c d = true ∨ c = d ∨ colorLt d c = true := by
  rw [colorLt_iff, colorLt_iff]
  rcases c with ⟨cr, cg, cb, ca⟩
  rcases d with ⟨dr, dg, db, da⟩
  simp only [Color.mk.injEq]
  omega

theorem insertColor_mem (c x : Color) (l : List Color) :
    x ∈ insertColor c l ↔ x = c ∨ x ∈ l := by
  induction l with
  | nil => simp [insertColor]
  | cons d ds ih =>
    unfold insertColor
    by_cases h1 : colorLt c d
    · rw [if_pos h1]
      simp [List.mem_cons]
    · rw [if_neg h1]
      by_cases h2 : c = d
      · subst h2
        rw [if_pos rfl]
        simp [List.mem_cons]
      · rw [if_neg h2]
        simp [List.mem_cons, ih]
        tauto

theorem insertColor_pairwise (c : Color) (l : List Color)
    (h : l.Pairwise (fun a b => colorLt a b = true)) :
    (insertColor c l).Pairwise (fun a b => colorLt a b = true) := by
  induction l with
  | nil =>
    simp [insertColor]
  | cons d ds ih =>
    rw [List.pairwise_cons] at h
    obtain ⟨hd, hds⟩ := h
    unfold insertColor
    by_cases h1 : colorLt c d
    · rw [if_pos h1]
      refine List.pairwise_cons.mpr ⟨?_, List.pairwise_cons.mpr ⟨hd, hds⟩⟩
      intro y hy
      rcases List.mem_cons.mp hy with rfl | hy
      · exact h1
      · exact colorLt_trans h1 (hd y hy)
    · rw [if_neg h1]
      by_cases h2 : c = d
      · rw [if_pos h2]
        exact List.pairwise_cons.mpr ⟨hd, hds⟩
      · rw [if_neg h2]
        refine List.pairwise_cons.mpr ⟨?_, ih hds⟩
        intro y hy
        rcases (insertColor_mem c y ds).mp hy with rfl | hy
        · rcases colorLt_total y d with h3 | h3 | h3
          · exact absurd h3 h1
          · exact absurd h3 h2
          · exact h3
        · exact hd y hy

theorem extractPalette_go_mem (pixels acc : List Color) (x : Color) :
    x ∈ pixels.foldl (fun acc p => insertColor (toOpaque p) acc) acc ↔
      x ∈ acc ∨ ∃ p ∈ pixels, x = toOpaque p := by
  induction pixels generalizing acc with
  | nil => simp
  | cons q qs ih =>
    rw [List.foldl_cons, ih, insertColor_mem]
    simp [List.mem_cons]
    tauto

theorem extractPalette_go_pairwise (pixels acc : List Color)
    (h : acc.Pairwise (fun a b => colorLt a b = true)) :
    (pixels.foldl (fun acc p => insertColor (toOpaque p) acc) acc).Pairwise
      (fun a b => colorLt a b = true) := by
  induction pixels generalizing acc with
  | nil => exact h
  | cons q qs ih =>
    rw [List.foldl_cons]
    exact ih _ (insertColor_pairwise _ _ h)

/-- Characterization of the matcher fold from an arbitrary accumulator:
either no candidate beats the incoming best and the accumulator is
returned unchanged, or the list splits around the first candidate that
attains the minimum, which is returned with its distance. -/
theorem foldl_matchStep_spec (t : Color) (l : List Color) (d0 : Nat) (c0 : Color) :
    ((∀ x ∈ l, d0 ≤ dist t x) ∧ l.foldl (matchStep t) (d0, c0) = (d0, c0)) ∨
    (∃ l1 x l2, l = l1 ++ x :: l2 ∧ dist t x < d0 ∧
      (∀ y ∈ l1, dist t x < dist t y) ∧
      (∀ y ∈ l2, dist t x ≤ dist t y) ∧
      l.foldl (matchStep t) (d0, c0) = (dist t x, x)) := by
  induction l generalizing d0 c0 with
  | nil =>
    left
    refine ⟨?_, rfl⟩
    intro x hx
    cases hx
  | cons a l ih =>
    by_cases h : dist t a < d0
    · have step : (a :: l).foldl (matchStep t) (d0, c0) = l.foldl (matchStep t) (dist t a, a) := by
        simp [List.foldl_cons, matchStep, h]
      rcases ih (dist t a) a with ⟨hall, heq⟩ | ⟨l1, x, l2, hl, hx, h1, h2, heq⟩
      · right
        refine ⟨[], a, l, by simp, h, ?_, hall, by rw [step, heq]⟩
        intro y hy
        cases hy
      · right
        refine ⟨a :: l1, x, l2, by rw [hl]; rfl, lt_trans hx h, ?_, h2, by rw [step, heq]⟩
        intro y hy
        rcases List.mem_cons.mp hy with rfl | hy
        · exact hx
        · exact h1 y hy
    · have step : (a :: l).foldl (matchStep t) (d0, c0) = l.foldl (matchStep t) (d0, c0) := by
        simp [List.foldl_cons, matchStep, h]
      rcases ih d0 c0 with ⟨hall, heq⟩ | ⟨l1, x, l2, hl, hx, h1, h2, heq⟩
      · left
        refine ⟨?_, by rw [step, heq]⟩
        intro y hy
        rcases List.mem_cons.mp hy with rfl | hy
        · exact Nat.le_of_not_lt h
        · exact hall y hy
      · right
        refine ⟨a :: l1, x, l2, by rw [hl]; rfl, hx, ?_, h2, by rw [step, heq]⟩
        intro y hy
        rcases List.mem_cons.mp hy with rfl | hy
        · exact lt_of_lt_of_le hx (Nat.le_of_not_lt h)
        · exact h1 y hy

/-- The matcher scan instantiated at its actual sentinel accumulator
`(255, black)`: either every palette color is at distance at least 255 and
the sentinel survives, or the palette splits around the first color
attaining the minimum distance, which is below 255. -/
theorem scanMin_spec (t : Color) (palette : List Color) :
    (scanMin t palette = (255, ⟨0, 0, 0, t.a⟩) ∧ ∀ p ∈ palette, 255 ≤ dist t p) ∨
    (∃ l1 x l2, palette = l1 ++ x :: l2 ∧ dist t x < 255 ∧
      (∀ y ∈ l1, dist t x < dist t y) ∧
      (∀ y ∈ l2, dist t x ≤ dist t y) ∧
      scanMin t palette = (dist t x, x)) := by
  rcases foldl_matchStep_spec t palette 255 ⟨0, 0, 0, t.a⟩ with ⟨hall, heq⟩ | h
  · exact Or.inl ⟨heq, hall⟩
  · exact Or.inr h

/-- Minimality over the whole palette, recovered from the split form. -/
theorem split_min {t x : Color} {l1 l2 palette : List Color}
    (hl : palette = l1 ++ x :: l2)
    (h1 : ∀ y ∈ l1, dist t x < dist t y) (h2 : ∀ y ∈ l2, dist t x ≤ dist t y) :
    ∀ y ∈ palette, dist t x ≤ dist t y := by
  intro y hy
  rw [hl] at hy
  rcases List.mem_append.mp hy with hy | hy
  · exact le_of_lt (h1 y hy)
  · rcases List.mem_cons.mp hy with rfl | hy
    · exact le_refl _
    · exact h2 y hy

/-- When every palette color is at distance at least 255, the sentinel
survives the scan and the pixel becomes black with its own alpha. -/
theorem nearestColor_far (palette : List Color) (t : Color)
    (h : ∀ p ∈ palette, 255 ≤ dist t p) :
    nearestColor palette t = ⟨0, 0, 0, t.a⟩ := by
  rcases scanMin_spec t palette with ⟨heq, _⟩ | ⟨l1, x, l2, hl, hx, _, _, _⟩
  · unfold nearestColor
    rw [heq]
  · exfalso
    have hmem : x ∈ palette := by
      rw [hl]
      exact List.mem_append_right _ (List.mem_cons_self x l2)
    have := h x hmem
    omega

/-- When some palette color is at distance below 255, the scan returns the
first color attaining the minimum distance. -/
theorem nearestColor_near (palette : List Color) (t p0 : Color)
    (h0 : p0 ∈ palette) (hd : dist t p0 < 255) :
    ∃ l1 x l2, palette = l1 ++ x :: l2 ∧ dist t x < 255 ∧
      (∀ y ∈ l1, dist t x < dist t y) ∧
      (∀ y ∈ l2, dist t x ≤ dist t y) ∧
      scanMin t palette = (dist t x, x) ∧
      nearestColor palette t = ⟨x.r, x.g, x.b, t.a⟩ := by
  rcases scanMin_spec t palette with ⟨_, hall⟩ | ⟨l1, x, l2, hl, hx, h1, h2, heq⟩
  · have := hall p0 h0
    omega
  · refine ⟨l1, x, l2, hl, hx, h1, h2, heq, ?_⟩
    unfold nearestColor
    rw [heq]

/-- Every output of the matcher is either black or (in RGB) a palette
member attaining the minimum distance, which is below 255. -/
theorem nearestColor_cases (palette : List Color) (t : Color) :
    nearestColor palette t = ⟨0, 0, 0, t.a⟩ ∨
    (∃ x ∈ palette, nearestColor palette t = ⟨x.r, x.g, x.b, t.a⟩ ∧
      dist t x < 255 ∧ ∀ p ∈ palette, dist t x ≤ dist t p) := by
  rcases scanMin_spec t palette with ⟨heq, _⟩ | ⟨l1, x, l2, hl, hx, h1, h2, heq⟩
  · left
    unfold nearestColor
    rw [heq]
  · right
    refine ⟨x, ?_, ?_, hx, split_min hl h1 h2⟩
    · rw [hl]
      exact List.mem_append_right _ (List.mem_cons_self x l2)
    · unfold nearestColor
      rw [heq]

/-- Zero distance is the same thing as RGB equality. -/
theorem dist_eq_zero_iff (t p : Color) : dist t p = 0 ↔ sameRGB t p := by
  unfold dist sameRGB
  simp [Nat.dist]
  omega

/-- Indexing through the remapping loop: the output pixel at index `i` is
the matcher applied to the input pixel at index `i`. -/
theorem remap_getElem (palette grid : List Color) (i : Nat) (c : Color)
    (hi : grid[i]? = some c) :
    (remap palette grid)[i]? = some (nearestColor palette c) := by
  unfold remap
  rw [List.getElem?_map, hi]
  rfl

/-- C1 counterexample: the matcher does not always return a minimizing
palette member. With the non-empty palette `{(0,0,5,255)}` and target
`(255,255,255,255)`, the unique palette member sits at distance 760, which
never beats the sentinel 255, so the output RGB is the fallback black
`(0,0,0)` — not the RGB of any palette member. -/
theorem claim1_counterexample :
    ([⟨0, 0, 5, 255⟩] : List Color) ≠ [] ∧
    nearestColor [⟨0, 0, 5, 255⟩] ⟨255, 255, 255, 255⟩ = ⟨0, 0, 0, 255⟩ ∧
    ¬ ∃ p ∈ ([⟨0, 0, 5, 255⟩] : List Color),
        sameRGB (nearestColor [⟨0, 0, 5, 255⟩] ⟨255, 255, 255, 255⟩) p := by
  decide

/-- C1 amended: for every target color and every palette containing some
color at Manhattan distance below 255 from the target, the matcher returns
(in RGB) a palette member minimizing the Manhattan RGB distance. -/
theorem claim1_matcher_minimizes (palette : List Color) (t p0 : Color)
    (h0 : p0 ∈ palette) (hd : dist t p0 < 255) :
    ∃ q ∈ palette, sameRGB (nearestColor palette t) q ∧
      ∀ p ∈ palette, dist t q ≤ dist t p := by
  obtain ⟨l1, x, l2, hl, hx, h1, h2, hscan, heq⟩ := nearestColor_near palette t p0 h0 hd
  refine ⟨x, ?_, ?_, split_min hl h1 h2⟩
  · rw [hl]
    exact List.mem_append_right _ (List.mem_cons_self x l2)
  · rw [heq]
    exact ⟨rfl, rfl, rfl⟩

/-- Witness for C1 amended at palette `[(0,0,0,255)]`, target `(1,2,3,9)`,
whose distance 6 is below 255. -/
theorem claim1_matcher_minimizes_witness :
    ∃ q ∈ ([⟨0, 0, 0, 255⟩] : List Color),
      sameRGB (nearestColor [⟨0, 0, 0, 255⟩] ⟨1, 2, 3, 9⟩) q ∧
      ∀ p ∈ ([⟨0, 0, 0, 255⟩] : List Color),
        dist ⟨1, 2, 3, 9⟩ q ≤ dist ⟨1, 2, 3, 9⟩ p :=
  claim1_matcher_minimizes [⟨0, 0, 0, 255⟩] ⟨1, 2, 3, 9⟩ ⟨0, 0, 0, 255⟩
    (by decide) (by decide)

/-- C2 counterexample: palette closure fails for a non-empty palette. With
palette `{(0,0,5,255)}` and the one-pixel grid `[(250,255,255,9)]`, the
output pixel is `(0,0,0,9)`, whose RGB `(0,0,0)` is not among the
palette's RGB values. -/
theorem claim2_counterexample :
    remap [⟨0, 0, 5, 255⟩] [⟨250, 255, 255, 9⟩] = [⟨0, 0, 0, 9⟩] ∧
    ¬ ∃ p ∈ ([⟨0, 0, 5, 255⟩] : List Color), sameRGB ⟨0, 0, 0, 9⟩ p := by
  decide

/-- C2 amended: every pixel of the remapped output has an RGB value that
is either a member of the palette's RGB values or the fallback black
`(0,0,0)`; in particular, with an empty palette the first alternative is
impossible, so every output RGB is `(0,0,0)`. -/
theorem claim2_palette_closure (palette grid : List Color) (i : Nat) (c : Color)
    (hi : (remap palette grid)[i]? = some c) :
    (∃ p ∈ palette, sameRGB c p) ∨ (c.r = 0 ∧ c.g = 0 ∧ c.b = 0) := by
  unfold remap at hi
  rw [List.getElem?_map] at hi
  obtain ⟨a, ha, hfa⟩ := Option.map_eq_some'.mp hi
  rcases nearestColor_cases palette a with hcase | ⟨x, hx, hcase, _, _⟩
  · right
    rw [← hfa, hcase]
    exact ⟨rfl, rfl, rfl⟩
  · left
    refine ⟨x, hx, ?_⟩
    rw [← hfa, hcase]
    exact ⟨rfl, rfl, rfl⟩

/-- Witness for C2 amended at palette `[(1,1,1,255)]`, one-pixel grid
`[(0,0,0,5)]`, index 0: the output pixel is `(1,1,1,5)`. -/
theorem claim2_palette_closure_witness :
    (∃ p ∈ ([⟨1, 1, 1, 255⟩] : List Color), sameRGB ⟨1, 1, 1, 5⟩ p) ∨
    ((⟨1, 1, 1, 5⟩ : Color).r = 0 ∧ (⟨1, 1, 1, 5⟩ : Color).g = 0 ∧
      (⟨1, 1, 1, 5⟩ : Color).b = 0) :=
  claim2_palette_closure [⟨1, 1, 1, 255⟩] [⟨0, 0, 0, 5⟩] 0 ⟨1, 1, 1, 5⟩ (by decide)

/-- C3: for every pixel and every palette, if every palette color is at
Manhattan RGB distance at least 255 from the pixel's RGB, the output
pixel's RGB is `(0,0,0)` (its alpha preserved): the sentinel
`min_diff = 255` with strict-improvement comparison causes the black
fallback not only for empty palettes. -/
theorem claim3_far_palette_black (palette grid : List Color) (i : Nat) (c : Color)
    (hi : grid[i]? = some c) (hfar : ∀ p ∈ palette, 255 ≤ dist c p) :
    (remap palette grid)[i]? = some ⟨0, 0, 0, c.a⟩ := by
  rw [remap_getElem palette grid i c hi, nearestColor_far palette c hfar]

/-- Witness for C3 at the non-empty palette `[(255,255,255,255)]` and the
one-pixel grid `[(0,0,0,7)]`: the single palette color is at distance 765,
and the output pixel is `(0,0,0,7)`. -/
theorem claim3_far_palette_black_witness :
    (remap [⟨255, 255, 255, 255⟩] [⟨0, 0, 0, 7⟩])[0]? = some ⟨0, 0, 0, 7⟩ :=
  claim3_far_palette_black [⟨255, 255, 255, 255⟩] [⟨0, 0, 0, 7⟩] 0 ⟨0, 0, 0, 7⟩
    (by decide) (by decide)

/-- C4 counterexample: with the ascending palette
`[(0,0,255,255), (255,0,0,255)]` and pixel `(128,0,128,10)`, the two
palette colors are at equal distance 255, yet the chosen output is the
fallback black `(0,0,0,10)`, not the first color in ascending order. -/
theorem claim4_counterexample :
    dist ⟨128, 0, 128, 10⟩ ⟨0, 0, 255, 255⟩ = dist ⟨128, 0, 128, 10⟩ ⟨255, 0, 0, 255⟩ ∧
    colorLt ⟨0, 0, 255, 255⟩ ⟨255, 0, 0, 255⟩ = true ∧
    nearestColor [⟨0, 0, 255, 255⟩, ⟨255, 0, 0, 255⟩] ⟨128, 0, 128, 10⟩ = ⟨0, 0, 0, 10⟩ ∧
    ¬ sameRGB (nearestColor [⟨0, 0, 255, 255⟩, ⟨255, 0, 0, 255⟩] ⟨128, 0, 128, 10⟩)
        ⟨0, 0, 255, 255⟩ := by
  decide

/-- C4 amended: over a palette sorted in ascending (R,G,B,A) order that
contains some color at distance below 255, the scan's chosen color is a
palette member of minimum distance, and among all palette colors at that
same distance it is the one that comes first in ascending (R,G,B,A)
order. -/
theorem claim4_tiebreak_first_ascending (palette : List Color) (t p0 : Color)
    (hsorted : palette.Pairwise (fun a b => colorLt a b = true))
    (h0 : p0 ∈ palette) (hd : dist t p0 < 255) :
    ∃ q ∈ palette, (scanMin t palette).2 = q ∧
      sameRGB (nearestColor palette t) q ∧
      (∀ p ∈ palette, dist t q ≤ dist t p) ∧
      ∀ p ∈ palette, dist t p = dist t q → q = p ∨ colorLt q p = true := by
  obtain ⟨l1, x, l2, hl, hx, h1, h2, hscan, heq⟩ := nearestColor_near palette t p0 h0 hd
  rw [hl] at hsorted
  obtain ⟨_, hx2, _⟩ := List.pairwise_append.mp hsorted
  obtain ⟨hxlt, _⟩ := List.pairwise_cons.mp hx2
  refine ⟨x, ?_, by rw [hscan], ?_, split_min hl h1 h2, ?_⟩
  · rw [hl]
    exact List.mem_append_right _ (List.mem_cons_self x l2)
  · rw [heq]
    exact ⟨rfl, rfl, rfl⟩
  · intro p hp hdist
    rw [hl] at hp
    rcases List.mem_append.mp hp with hp | hp
    · have := h1 p hp
      omega
    · rcases List.mem_cons.mp hp with rfl | hp
      · exact Or.inl rfl
      · exact Or.inr (hxlt p hp)

/-- Witness for C4 amended at the sorted palette
`[(0,0,0,255), (0,0,2,255)]` and target `(0,0,1,5)`: both palette colors
are at distance 1, and the first one in ascending order is chosen. -/
theorem claim4_tiebreak_first_ascending_witness :
    ∃ q ∈ ([⟨0, 0, 0, 255⟩, ⟨0, 0, 2, 255⟩] : List Color),
      (scanMin ⟨0, 0, 1, 5⟩ [⟨0, 0, 0, 255⟩, ⟨0, 0, 2, 255⟩]).2 = q ∧
      sameRGB (nearestColor [⟨0, 0, 0, 255⟩, ⟨0, 0, 2, 255⟩] ⟨0, 0, 1, 5⟩) q ∧
      (∀ p ∈ ([⟨0, 0, 0, 255⟩, ⟨0, 0, 2, 255⟩] : List Color),
        dist ⟨0, 0, 1, 5⟩ q ≤ dist ⟨0, 0, 1, 5⟩ p) ∧
      ∀ p ∈ ([⟨0, 0, 0, 255⟩, ⟨0, 0, 2, 255⟩] : List Color),
        dist ⟨0, 0, 1, 5⟩ p = dist ⟨0, 0, 1, 5⟩ q → q = p ∨ colorLt q p = true :=
  claim4_tiebreak_first_ascending [⟨0, 0, 0, 255⟩, ⟨0, 0, 2, 255⟩] ⟨0, 0, 1, 5⟩
    ⟨0, 0, 0, 255⟩ (by decide) (by decide) (by decide)

/-- C5: for every pixel of the target grid and every palette (including
the empty one), the remapped pixel's alpha equals the original pixel's
alpha. -/
theorem claim5_alpha_preserved (palette grid : List Color) (i : Nat) (c : Color)
    (hi : grid[i]? = some c) :
    ∃ out, (remap palette grid)[i]? = some out ∧ out.a = c.a :=
  ⟨nearestColor palette c, remap_getElem palette grid i c hi, rfl⟩

/-- Witness for C5 at the empty palette and one-pixel grid `[(9,8,7,42)]`:
the output pixel exists and keeps alpha 42. -/
theorem claim5_alpha_preserved_witness :
    ∃ out, (remap [] [⟨9, 8, 7, 42⟩])[0]? = some out ∧
      out.a = (⟨9, 8, 7, 42⟩ : Color).a :=
  claim5_alpha_preserved [] [⟨9, 8, 7, 42⟩] 0 ⟨9, 8, 7, 42⟩ (by decide)

/-- C6: remapping with an empty palette turns every pixel's RGB into
`(0,0,0)` while preserving its alpha; nothing fails. -/
theorem claim6_empty_palette_black (grid : List Color) (i : Nat) (c : Color)
    (hi : grid[i]? = some c) :
    (remap [] grid)[i]? = some ⟨0, 0, 0, c.a⟩ := by
  rw [remap_getElem [] grid i c hi]
  rfl

/-- Witness for C6 at the one-pixel grid `[(200,100,50,33)]`: the output
pixel is `(0,0,0,33)`. -/
theorem claim6_empty_palette_black_witness :
    (remap [] [⟨200, 100, 50, 33⟩])[0]? = some ⟨0, 0, 0, 33⟩ :=
  claim6_empty_palette_black [⟨200, 100, 50, 33⟩] 0 ⟨200, 100, 50, 33⟩ (by decide)

/-- C7: the palette extractor produces exactly the set
`{(R,G,B,255) | some pixel has channels (R,G,B)}`: membership forces
alpha 255 and comes from some pixel (so duplicates collapse), the
resulting list is strictly ascending in (R,G,B,A) order, and the empty
grid yields the empty palette. -/
theorem claim7_extractor_spec (pixels : List Color) :
    (∀ c, c ∈ extractPalette pixels ↔
      ∃ p ∈ pixels, c = ⟨p.r, p.g, p.b, 255⟩) ∧
    (extractPalette pixels).Pairwise (fun a b => colorLt a b = true) ∧
    extractPalette ([] : List Color) = [] := by
  refine ⟨?_, ?_, rfl⟩
  · intro c
    unfold extractPalette
    rw [extractPalette_go_mem]
    simp [toOpaque]
  · exact extractPalette_go_pairwise pixels [] List.Pairwise.nil

/-- C8: if every pixel of the target grid already has its RGB value in the
palette, remapping leaves the whole grid unchanged (distance 0 wins the
scan and the original alpha is restored). -/
theorem claim8_self_mapping (palette grid : List Color)
    (h : ∀ c ∈ grid, ∃ p ∈ palette, sameRGB c p) :
    remap palette grid = grid := by
  unfold remap
  induction grid with
  | nil => rfl
  | cons c cs ih =>
    rw [List.map_cons]
    obtain ⟨p, hp, hrgb⟩ := h c (List.mem_cons_self c cs)
    have hdp : dist c p = 0 := (dist_eq_zero_iff c p).mpr hrgb
    obtain ⟨l1, x, l2, hl, hx, h1, h2, hscan, heq⟩ :=
      nearestColor_near palette c p hp (by omega)
    have hxmin : dist c x ≤ dist c p := split_min hl h1 h2 p hp
    have hcx : sameRGB c x := (dist_eq_zero_iff c x).mp (by omega)
    obtain ⟨e1, e2, e3⟩ := hcx
    have hnc : nearestColor palette c = c := by
      rw [heq, ← e1, ← e2, ← e3]
    rw [hnc, ih (fun d hd => h d (List.mem_cons.mpr (Or.inr hd)))]

/-- Witness for C8 at palette `[(1,2,3,255)]` and the one-pixel grid
`[(1,2,3,77)]`, whose RGB is in the palette: the grid is unchanged. -/
theorem claim8_self_mapping_witness :
    remap [⟨1, 2, 3, 255⟩] [⟨1, 2, 3, 77⟩] = [⟨1, 2, 3, 77⟩] :=
  claim8_self_mapping [⟨1, 2, 3, 255⟩] [⟨1, 2, 3, 77⟩] (by decide)

/-- C9: on the grid `[(10,10,10,255), (250,250,250,128)]` with palette
`{(0,0,0,255), (255,255,255,255)}`, the remapped output is
`[(0,0,0,255), (255,255,255,128)]`. -/
theorem claim9_concrete_example :
    remap [⟨0, 0, 0, 255⟩, ⟨255, 255, 255, 255⟩]
        [⟨10, 10, 10, 255⟩, ⟨250, 250, 250, 128⟩] =
      [⟨0, 0, 0, 255⟩, ⟨255, 255, 255, 128⟩] := by
  decide

/-- C10: for byte-valued channels, the distance as computed with the
`u64` additions wrapping modulo `2 ^ 64` equals the exact Manhattan sum,
which is at most 765 — so no wrap ever occurs. -/
theorem claim10_distance_exact (c p : Color)
    (hc : c.r < 256 ∧ c.g < 256 ∧ c.b < 256)
    (hp : p.r < 256 ∧ p.g < 256 ∧ p.b < 256) :
    distU64 c p = dist c p ∧ dist c p ≤ 765 := by
  obtain ⟨h1, h2, h3⟩ := hc
  obtain ⟨h4, h5, h6⟩ := hp
  unfold distU64 dist U64_MOD
  simp [Nat.dist]
  omega

/-- Witness for C10 at `(255,0,0,3)` and `(0,255,0,4)`: the wrapped and
exact distances agree (both 510) and the bound holds. -/
theorem claim10_distance_exact_witness :
    distU64 ⟨255, 0, 0, 3⟩ ⟨0, 255, 0, 4⟩ = dist ⟨255, 0, 0, 3⟩ ⟨0, 255, 0, 4⟩ ∧
    dist ⟨255, 0, 0, 3⟩ ⟨0, 255, 0, 4⟩ ≤ 765 :=
  claim10_distance_exact ⟨255, 0, 0, 3⟩ ⟨0, 255, 0, 4⟩ (by decide) (by decide)

end Palettizer
